import Mathlib

/-!
# Shallow embedding of the strain-seer numerical core

This file embeds the numerical engine of the repository in Lean 4 and proves
the frozen claims about it.

Embedded source files:
* `src/strain_analysis_core.py` — `normalize_points_by_scale`,
  `calculate_strain_tensor` (the "core" variant);
* `src/strain_analysis.py` — the second `calculate_strain_tensor` variant
  (named `calculate_strain_tensor_sa` here) and the identical
  `normalize_points_by_scale`;
* `src/strain_analysis_data.py` — `calculate_regression`,
  `analyze_strain_data`.

Conventions of the embedding:
* Point coordinates are exact rationals (`ℚ`).  Every IEEE double is a
  rational number, so rational point arrays faithfully represent all
  machine inputs; the arithmetic itself is idealized as exact.
* The normalizer computes a Euclidean norm (a square root), so it is
  embedded over `ℝ`; the strain estimator and the regression layer are
  purely rational and stay executable over `ℚ`.
* A NumPy array of points is a length `n` together with an `n × 2` matrix
  (`PointArray` below); shape checks in the source compare the lengths.
  All point data in this program has exactly two columns, so only the row
  count can mismatch.
* `np.linalg.lstsq(A, B, rcond=None)` is modeled exactly (`lstsq` below):
  it returns the minimum-norm least-squares solution `A⁺ * B` together
  with the rank of `A`; for an `m × 2` matrix the Moore–Penrose inverse
  has closed rational forms in each of the three rank cases.
* Python exceptions become `Except` errors; the `print` of the rank
  warning in `calculate_strain_tensor` (the only observable effect of the
  rank test) is modeled as a returned boolean flag `rank_ok`, which is
  `false` exactly when the source would print the warning.
-/

open Matrix

/-- A 2-D point array as passed around by the Python code: `n` points, each
an `(x, y)` pair.  Mirrors a NumPy array of shape `(n, 2)`. -/
structure PointArray (K : Type) where
  n : ℕ
  pts : Matrix (Fin n) (Fin 2) K

/-- Transport a matrix of points along an equality of row counts. -/
def castPoints {K : Type} {n m : ℕ} (h : n = m) (P : Matrix (Fin m) (Fin 2) K) :
    Matrix (Fin n) (Fin 2) K :=
  Matrix.of fun i j => P (Fin.cast h i) j

/-- The `k`-th element of `[i for i in range(n) if i != c]`
(`strain_analysis_core.py` line 90, `strain_analysis.py` line 86):
indices below `c` are kept, indices at or above `c` are shifted by one. -/
def cornerIndex {n : ℕ} (c : Fin n) (k : Fin (n - 1)) : Fin n :=
  if h : (k : ℕ) < (c : ℕ) then
    ⟨k, Nat.lt_trans h c.isLt⟩
  else
    ⟨k + 1, by have hk := k.isLt; omega⟩

/-- Computes `points[corner_indices] - center`: the matrix of vectors from the center
point to the remaining points (`strain_analysis_core.py` lines 93–98,
`strain_analysis.py` lines 89–90). -/
def cornerVecs {n : ℕ} (P : Matrix (Fin n) (Fin 2) ℚ) (c : Fin n) :
    Matrix (Fin (n - 1)) (Fin 2) ℚ :=
  Matrix.of fun k j => P (cornerIndex c k) j - P c j

/-- Determinant of a 2 × 2 matrix, written out. -/
def det2 (M : Matrix (Fin 2) (Fin 2) ℚ) : ℚ :=
  M 0 0 * M 1 1 - M 0 1 * M 1 0

/-- Explicit inverse of a 2 × 2 matrix (adjugate over determinant); used so
that the embedding stays computable. -/
def inv2 (M : Matrix (Fin 2) (Fin 2) ℚ) : Matrix (Fin 2) (Fin 2) ℚ :=
  (det2 M)⁻¹ • !![M 1 1, -(M 0 1); -(M 1 0), M 0 0]

/-- The Gram matrix `Aᵀ * A` of an `m × 2` matrix. -/
def gram {m : ℕ} (A : Matrix (Fin m) (Fin 2) ℚ) : Matrix (Fin 2) (Fin 2) ℚ :=
  Aᵀ * A

/-- Exact rank of an `m × 2` rational matrix, as reported by
`np.linalg.lstsq` for the coefficient matrix (the SVD rank of the float
computation, idealized to exact arithmetic): rank 2 iff the Gram matrix is
nonsingular, rank 0 iff the matrix is zero, rank 1 otherwise. -/
def matRank {m : ℕ} (A : Matrix (Fin m) (Fin 2) ℚ) : ℕ :=
  if det2 (gram A) ≠ 0 then 2 else if A ≠ 0 then 1 else 0

/-- Moore–Penrose pseudoinverse of an `m × 2` rational matrix, by rank:
rank 2 gives `(AᵀA)⁻¹Aᵀ`; a rank-1 matrix factors as `u * vᵀ`, whose
pseudoinverse is `Aᵀ / trace (AᵀA)`; the zero matrix gives `0`. -/
def pinv {m : ℕ} (A : Matrix (Fin m) (Fin 2) ℚ) : Matrix (Fin 2) (Fin m) ℚ :=
  if det2 (gram A) ≠ 0 then inv2 (gram A) * Aᵀ
  else if A ≠ 0 then (gram A 0 0 + gram A 1 1)⁻¹ • Aᵀ
  else 0

/-- Model of `np.linalg.lstsq(A, B, rcond=None)` for an `m × 2` system, as
used on lines 103–107 of `strain_analysis_core.py` and line 97 of
`strain_analysis.py`: the minimum-norm least-squares solution `A⁺ * B`
and the rank of `A` (the residuals and singular values are discarded by
the callers). -/
def lstsq {m : ℕ} (A B : Matrix (Fin m) (Fin 2) ℚ) :
    Matrix (Fin 2) (Fin 2) ℚ × ℕ :=
  (pinv A * B, matRank A)

/-- The `strain_type` literal of the Python API. -/
inductive StrainType where
  | small
  | green_lagrangian
deriving DecidableEq

/-- The final strain computation from the fitted deformation gradient `F`
(`strain_analysis_core.py` lines 113–120, `strain_analysis.py` lines
104–112): `0.5 * (F + Fᵀ) - I` for small strain, `0.5 * (Fᵀ * F - I)` for
Green–Lagrangian strain. -/
def strainFromF (st : StrainType) (F : Matrix (Fin 2) (Fin 2) ℚ) :
    Matrix (Fin 2) (Fin 2) ℚ :=
  match st with
  | .small => ((1 : ℚ) / 2) • (F + Fᵀ) - 1
  | .green_lagrangian => ((1 : ℚ) / 2) • (Fᵀ * F - 1)

/-- The `ValueError`s raised by the two strain-tensor implementations. -/
inductive StrainError where
  /-- Message `"... must be an array of shape (5, 2)"` from `validate_points`. -/
  | shapeError
  /-- Message `"Point arrays must have the same shape"`. -/
  | shapeMismatch
  /-- Message `"center_index must be between 0 and ..."`. -/
  | indexRange
deriving DecidableEq

/-- Body of `strain_analysis_core.py::calculate_strain_tensor` after
validation (lines 87–120): corner vectors about the center, least-squares
fit of `Fᵀ`, and the strain formula.  The returned boolean is `true` iff
the source would not print the rank warning (rank ≥ 2). -/
def strainBodyCore {n : ℕ} (P Q : Matrix (Fin n) (Fin 2) ℚ) (st : StrainType)
    (c : Fin n) : Matrix (Fin 2) (Fin 2) ℚ × Bool :=
  let vectors_original := cornerVecs P c
  let vectors_deformed := cornerVecs Q c
  let R := lstsq vectors_original vectors_deformed
  let F := R.1ᵀ
  (strainFromF st F, decide (¬ R.2 < 2))

/-- Body of `strain_analysis.py::calculate_strain_tensor` after validation
(lines 81–112).  It first transposes the corner-vector matrices into
`2 × N` form (`V`, `V_prime`, lines 93–94) and then transposes them back
when calling `lstsq` (line 97). -/
def strainBodySA {n : ℕ} (P Q : Matrix (Fin n) (Fin 2) ℚ) (st : StrainType)
    (c : Fin n) : Matrix (Fin 2) (Fin 2) ℚ × Bool :=
  let vectors_original := cornerVecs P c
  let vectors_deformed := cornerVecs Q c
  let V := vectors_originalᵀ
  let V_prime := vectors_deformedᵀ
  let R := lstsq Vᵀ V_primeᵀ
  let F := R.1ᵀ
  (strainFromF st F, decide (¬ R.2 < 2))

/-- Embeds `strain_analysis_core.py::calculate_strain_tensor` (lines 50–120):
validates that both arrays have shape `(5, 2)` and that
`0 ≤ center_index < 5`, then computes the strain tensor.  The rank warning
print is returned as the boolean flag. -/
def calculate_strain_tensor (original_points deformed_points : PointArray ℚ)
    (strain_type : StrainType) (center_index : ℤ) :
    Except StrainError (Matrix (Fin 2) (Fin 2) ℚ × Bool) :=
  if h1 : original_points.n = 5 then
    if h2 : deformed_points.n = 5 then
      if hc : 0 ≤ center_index ∧ center_index < (original_points.n : ℤ) then
        .ok (strainBodyCore original_points.pts
          (castPoints (h1.trans h2.symm) deformed_points.pts) strain_type
          ⟨center_index.toNat, by omega⟩)
      else .error .indexRange
    else .error .shapeError
  else .error .shapeError

/-- Embeds `strain_analysis.py::calculate_strain_tensor` (lines 41–114): validates
only that the two arrays have the same shape and that
`0 ≤ center_index < n`, then computes the strain tensor via the
transpose-and-transpose-back route. -/
def calculate_strain_tensor_sa (original_points deformed_points : PointArray ℚ)
    (strain_type : StrainType) (center_index : ℤ) :
    Except StrainError (Matrix (Fin 2) (Fin 2) ℚ × Bool) :=
  if hsh : original_points.n = deformed_points.n then
    if hc : 0 ≤ center_index ∧ center_index < (original_points.n : ℤ) then
      .ok (strainBodySA original_points.pts
        (castPoints hsh deformed_points.pts) strain_type
        ⟨center_index.toNat, by omega⟩)
    else .error .indexRange
  else .error .shapeMismatch

/-! ## The normalizer (`normalize_points_by_scale`) -/

/-- Computes `np.linalg.norm` of the difference of two planar points. -/
noncomputable def eucDist (p q : Fin 2 → ℝ) : ℝ :=
  Real.sqrt ((p 0 - q 0) ^ 2 + (p 1 - q 1) ^ 2)

/-- The `ValueError`s raised by `normalize_points_by_scale`.  The source
raises only the two shape errors; it contains no error path for a
degenerate (zero-length) scale segment. -/
inductive NormError where
  /-- Message `"fiducial_points must be an array of shape (5, 2)"`. -/
  | fiducialShape
  /-- Message `"scale_points must be an array of shape (2, 2)"`. -/
  | scaleShape
deriving DecidableEq

/-- Embeds `normalize_points_by_scale` (`strain_analysis_core.py` lines 25–47; the
copy in `strain_analysis.py` lines 5–38 performs the identical
computation): validates the two shapes, computes
`pixel_scale = np.linalg.norm(scale_points[1] - scale_points[0])` and
`scale_factor = scale_length / pixel_scale`, and returns
`(fiducial_points - scale_points[0]) * scale_factor`.

There is no test for `pixel_scale == 0` anywhere in the function: with
coincident scale points the float code divides by zero, which in NumPy
emits a runtime warning and produces non-finite values — it does not
raise.  In this real-number model division by zero yields `0` instead of
`inf`, which differs in the value produced but agrees on what the claims
below are about: the degenerate input reaches the `.ok` branch. -/
noncomputable def normalize_points_by_scale
    (fiducial_points scale_points : PointArray ℝ) (scale_length : ℝ) :
    Except NormError (Matrix (Fin 5) (Fin 2) ℝ) :=
  if h1 : fiducial_points.n = 5 then
    if h2 : scale_points.n = 2 then
      let F := castPoints h1.symm fiducial_points.pts
      let S := castPoints h2.symm scale_points.pts
      let pixel_scale := eucDist (S 1) (S 0)
      let scale_factor := scale_length / pixel_scale
      .ok (Matrix.of fun i j => (F i j - S 0 j) * scale_factor)
    else .error .scaleShape
  else .error .fiducialShape

/-! ## The data-analysis layer (`strain_analysis_data.py`) -/

/-- One entry of the `strain_data` list (the `StrainData` TypedDict). -/
structure StrainData where
  filename : String
  deformation_distance : ℚ
  strain_tensor : Matrix (Fin 2) (Fin 2) ℚ

/-- The `ValueError`s that `scipy.stats.linregress` can raise out of
`calculate_regression`. -/
inductive DataError where
  /-- Message `"Inputs must not be empty."` -/
  | emptyInput
  /-- Message `"Cannot calculate a linear regression if all x values are identical"`. -/
  | identicalX
deriving DecidableEq

/-- The fields of the `scipy.stats.linregress` result that
`calculate_regression` consumes.  The scipy `rvalue` itself involves a
square root (`r = ssxym / sqrt(ssxm * ssym)`); the caller only ever uses
its square, which is rational, so the model carries the square.  The
p-value (a Student-t tail probability, transcendental) is likewise not
representable rationally; no claim constrains it and it is omitted. -/
structure LinregressResult where
  slope : ℚ
  intercept : ℚ
  rvalue_sq : ℚ
deriving DecidableEq

/-- Computes `np.amax` of a list of floats (unused fallback `0` for the empty list,
which scipy rejects earlier). -/
def npamax : List ℚ → ℚ
  | [] => 0
  | a :: t => t.foldl max a

/-- Computes `np.amin` of a list of floats. -/
def npamin : List ℚ → ℚ
  | [] => 0
  | a :: t => t.foldl min a

/-- Computes `np.mean` of a list (with the `0 / 0 = 0` convention on the empty
list, unreachable through `linregress`). -/
def listMean (l : List ℚ) : ℚ := l.sum / (l.length : ℚ)

/-- Model of `scipy.stats.linregress(x, y)` as called by
`calculate_regression`:
* raises `ValueError("Inputs must not be empty.")` when either input has
  size 0;
* raises `ValueError("Cannot calculate a linear regression if all x
  values are identical")` when `np.amax(x) == np.amin(x)` **and**
  `len(x) > 1` (the exact scipy guard — a single data point passes it);
* otherwise computes the biased second moments
  `ssxm, ssxym, ssym` (`np.cov(x, y, bias=1)`) and returns
  `slope = ssxym / ssxm`, `intercept = ymean - slope * xmean`, and the
  correlation `r` (`0` when `ssxm` or `ssym` vanishes).  With a single
  point `ssxm = 0` and the float slope is `0/0 = nan` — still no
  exception; the rational convention `0 / 0 = 0` changes that value but
  not the absence of an error. -/
def linregress (x y : List ℚ) : Except DataError LinregressResult :=
  if x.length = 0 ∨ y.length = 0 then .error .emptyInput
  else if npamax x = npamin x ∧ 1 < x.length then .error .identicalX
  else
    let xmean := listMean x
    let ymean := listMean y
    let ssxm := (x.map fun a => (a - xmean) ^ 2).sum / (x.length : ℚ)
    let ssym := (y.map fun b => (b - ymean) ^ 2).sum / (y.length : ℚ)
    let ssxym := ((x.zip y).map fun p => (p.1 - xmean) * (p.2 - ymean)).sum
      / (x.length : ℚ)
    let slope := ssxym / ssxm
    let intercept := ymean - slope * xmean
    let rsq := if ssxm = 0 ∨ ssym = 0 then 0 else ssxym ^ 2 / (ssxm * ssym)
    .ok ⟨slope, intercept, rsq⟩

/-- The `RegressionResult` TypedDict as produced by
`calculate_regression` (without the transcendental p-value, see
`LinregressResult`). -/
structure RegressionResult where
  slope : ℚ
  intercept : ℚ
  r_squared : ℚ
deriving DecidableEq

/-- Embeds `strain_analysis_data.py::calculate_regression` (lines 55–73): calls
`stats.linregress` and repackages slope, intercept and `r_value ** 2`. -/
def calculate_regression (x_values y_values : List ℚ) :
    Except DataError RegressionResult :=
  (linregress x_values y_values).map fun L =>
    ⟨L.slope, L.intercept, L.rvalue_sq⟩

/-- The `regression_results` mapping: one `RegressionResult` per strain
component, keys `x_axis ↦ (0,0)`, `y_axis ↦ (1,1)`, `shear ↦ (0,1)`. -/
structure RegressionResults where
  x_axis : RegressionResult
  y_axis : RegressionResult
  shear : RegressionResult

/-- The `AnalysisResults` TypedDict. -/
structure AnalysisResults where
  strain_data : List StrainData
  scale_length : ℚ
  regression_results : RegressionResults

/-- Embeds `strain_analysis_data.py::analyze_strain_data` (lines 76–102): extracts
the deformation distances as the common regressor and runs
`calculate_regression` once per strain component; any `ValueError` from
scipy propagates out of the dict comprehension. -/
def analyze_strain_data (strain_data : List StrainData) (scale_length : ℚ) :
    Except DataError AnalysisResults :=
  let x_values := strain_data.map (·.deformation_distance)
  do
    let rx ← calculate_regression x_values
      (strain_data.map fun d => d.strain_tensor 0 0)
    let ry ← calculate_regression x_values
      (strain_data.map fun d => d.strain_tensor 1 1)
    let rs ← calculate_regression x_values
      (strain_data.map fun d => d.strain_tensor 0 1)
    return ⟨strain_data, scale_length, ⟨rx, ry, rs⟩⟩

/-! ## Basic lemmas about the embedded operations -/

theorem castPoints_self {K : Type} {n : ℕ} (h : n = n)
    (P : Matrix (Fin n) (Fin 2) K) : castPoints h P = P := by
  ext i j
  have hi : Fin.cast h i = i := Fin.ext (by simp)
  simp [castPoints, hi]

theorem strainBodySA_eq_core {n : ℕ} (P Q : Matrix (Fin n) (Fin 2) ℚ)
    (st : StrainType) (c : Fin n) :
    strainBodySA P Q st c = strainBodyCore P Q st c := by
  simp only [strainBodySA, strainBodyCore, Matrix.transpose_transpose]

/-- On inputs that pass all of its validations, the core implementation
reduces to its computational body. -/
theorem calculate_strain_tensor_ok (P Q : Matrix (Fin 5) (Fin 2) ℚ)
    (st : StrainType) (c : Fin 5) :
    calculate_strain_tensor ⟨5, P⟩ ⟨5, Q⟩ st ((c : ℕ) : ℤ) =
      .ok (strainBodyCore P Q st c) := by
  have hc : (0 : ℤ) ≤ ((c : ℕ) : ℤ) ∧ ((c : ℕ) : ℤ) < ((5 : ℕ) : ℤ) := by
    exact ⟨by positivity, by exact_mod_cast c.isLt⟩
  simp only [calculate_strain_tensor]
  rw [dif_pos trivial, dif_pos trivial, dif_pos hc]
  rw [castPoints_self]
  simp [Int.toNat_natCast]

/-- On inputs that pass all of its validations, the `strain_analysis.py`
implementation reduces to its computational body. -/
theorem calculate_strain_tensor_sa_ok {n : ℕ} (P Q : Matrix (Fin n) (Fin 2) ℚ)
    (st : StrainType) (c : Fin n) :
    calculate_strain_tensor_sa ⟨n, P⟩ ⟨n, Q⟩ st ((c : ℕ) : ℤ) =
      .ok (strainBodySA P Q st c) := by
  have hc : (0 : ℤ) ≤ ((c : ℕ) : ℤ) ∧ ((c : ℕ) : ℤ) < ((n : ℕ) : ℤ) := by
    exact ⟨by positivity, by exact_mod_cast c.isLt⟩
  simp only [calculate_strain_tensor_sa]
  rw [dif_pos trivial, dif_pos hc]
  rw [castPoints_self]
  simp [Int.toNat_natCast]

/-- The explicit 2 × 2 inverse is a left inverse whenever the determinant is
nonzero. -/
theorem inv2_mul_left (M : Matrix (Fin 2) (Fin 2) ℚ) (h : det2 M ≠ 0) :
    inv2 M * M = 1 := by
  ext i j
  fin_cases i <;> fin_cases j <;>
    · simp only [inv2, Matrix.smul_apply, Matrix.mul_apply, Fin.sum_univ_two,
        Matrix.one_apply, Matrix.smul_of, Matrix.of_apply, Matrix.cons_val',
        Matrix.cons_val_zero, Matrix.cons_val_one, Matrix.head_cons,
        Matrix.head_fin_const, Matrix.empty_val', Matrix.cons_val_fin_one,
        smul_eq_mul]
      field_simp [det2] at h ⊢
      ring

/-- Both strain formulas produce a symmetric matrix for every `F`. -/
theorem strainFromF_symm (st : StrainType) (F : Matrix (Fin 2) (Fin 2) ℚ) :
    strainFromF st F 0 1 = strainFromF st F 1 0 := by
  cases st <;>
    simp [strainFromF, Matrix.sub_apply, Matrix.smul_apply,
      Matrix.add_apply, Matrix.transpose_apply, Matrix.one_apply,
      Matrix.mul_apply, Fin.sum_univ_two, smul_eq_mul] <;>
    ring

/-- The Lagrange identity for two columns: the Cauchy–Schwarz defect of the
two column vectors equals half the sum of all squared 2 × 2 minors. -/
theorem lagrange_identity {m : ℕ} (a b : Fin m → ℚ) :
    ∑ i, ∑ j, (a i * b j - a j * b i) ^ 2 =
      2 * ((∑ i, a i * a i) * (∑ i, b i * b i)) -
        2 * ((∑ i, a i * b i) * (∑ i, a i * b i)) := by
  have expand : ∀ i j : Fin m,
      (a i * b j - a j * b i) ^ 2 =
        a i * a i * (b j * b j) - 2 * (a i * b i * (a j * b j)) +
          a j * a j * (b i * b i) := by
    intro i j; ring
  have h1 : ∑ i, ∑ j, a i * a i * (b j * b j) =
      (∑ i, a i * a i) * (∑ j, b j * b j) := by
    rw [Finset.sum_mul_sum]
  have h2 : ∑ i : Fin m, ∑ j : Fin m, a i * b i * (a j * b j) =
      (∑ i, a i * b i) * (∑ j, a j * b j) := by
    rw [Finset.sum_mul_sum]
  have h3 : ∑ i : Fin m, ∑ j : Fin m, a j * a j * (b i * b i) =
      (∑ i, a i * a i) * (∑ j, b j * b j) := by
    rw [Finset.sum_comm, Finset.sum_mul_sum]
  calc
    ∑ i, ∑ j, (a i * b j - a j * b i) ^ 2
        = ∑ i, ∑ j, (a i * a i * (b j * b j)
            - 2 * (a i * b i * (a j * b j)) + a j * a j * (b i * b i)) :=
          Finset.sum_congr rfl fun i _ =>
            Finset.sum_congr rfl fun j _ => expand i j
    _ = (∑ i, ∑ j, a i * a i * (b j * b j))
          - 2 * (∑ i, ∑ j, a i * b i * (a j * b j))
          + (∑ i, ∑ j, a j * a j * (b i * b i)) := by
          simp [Finset.sum_add_distrib, Finset.sum_sub_distrib,
            Finset.mul_sum]
    _ = 2 * ((∑ i, a i * a i) * (∑ i, b i * b i)) -
          2 * ((∑ i, a i * b i) * (∑ i, a i * b i)) := by
          rw [h1, h2, h3]; ring

/-- The determinant of the Gram matrix, written in terms of column sums. -/
theorem det2_gram_eq {m : ℕ} (A : Matrix (Fin m) (Fin 2) ℚ) :
    det2 (gram A) = (∑ i, A i 0 * A i 0) * (∑ i, A i 1 * A i 1)
      - (∑ i, A i 0 * A i 1) * (∑ i, A i 0 * A i 1) := by
  have hcomm : (∑ i, A i 1 * A i 0) = ∑ i, A i 0 * A i 1 :=
    Finset.sum_congr rfl fun i _ => mul_comm _ _
  simp only [det2, gram, Matrix.mul_apply, Matrix.transpose_apply]
  rw [hcomm]

/-- The Gram determinant vanishes exactly when every pair of rows of `A` is
linearly dependent, i.e. when the rank of `A` is below 2. -/
theorem det2_gram_eq_zero_iff {m : ℕ} (A : Matrix (Fin m) (Fin 2) ℚ) :
    det2 (gram A) = 0 ↔
      ∀ i j : Fin m, A i 0 * A j 1 - A j 0 * A i 1 = 0 := by
  have hl := lagrange_identity (fun i => A i 0) (fun i => A i 1)
  have hd := det2_gram_eq A
  constructor
  · intro h i j
    have hsum : ∑ i : Fin m, ∑ j : Fin m,
        (A i 0 * A j 1 - A j 0 * A i 1) ^ 2 = 0 := by
      rw [hl]; rw [h] at hd; linarith
    have hrow := (Finset.sum_eq_zero_iff_of_nonneg fun i _ =>
      Finset.sum_nonneg fun j _ => sq_nonneg _).mp hsum i (Finset.mem_univ i)
    have hentry := (Finset.sum_eq_zero_iff_of_nonneg fun j _ =>
      sq_nonneg _).mp hrow j (Finset.mem_univ j)
    exact pow_eq_zero_iff two_ne_zero |>.mp hentry
  · intro h
    have hsum : ∑ i : Fin m, ∑ j : Fin m,
        (A i 0 * A j 1 - A j 0 * A i 1) ^ 2 = 0 :=
      Finset.sum_eq_zero fun i _ => Finset.sum_eq_zero fun j _ => by
        rw [h i j]; ring
    rw [hsum] at hl
    linarith

/-- The rank `matRank` is below 2 exactly when the Gram determinant vanishes. -/
theorem matRank_lt_two_iff {m : ℕ} (A : Matrix (Fin m) (Fin 2) ℚ) :
    matRank A < 2 ↔ det2 (gram A) = 0 := by
  rcases eq_or_ne (det2 (gram A)) 0 with h | h
  · simp only [matRank, h, ne_eq, not_true_eq_false, if_false]
    rcases eq_or_ne A 0 with hA | hA <;> simp [hA]
  · simp [matRank, h]

/-- The rank `matRank` equals 2 exactly when the Gram determinant is nonzero. -/
theorem matRank_eq_two_iff {m : ℕ} (A : Matrix (Fin m) (Fin 2) ℚ) :
    matRank A = 2 ↔ det2 (gram A) ≠ 0 := by
  rcases eq_or_ne (det2 (gram A)) 0 with h | h
  · simp only [matRank, h, ne_eq, not_true_eq_false, if_false]
    rcases eq_or_ne A 0 with hA | hA <;> simp [hA, h]
  · simp [matRank, h]

/-- In the full-rank case the pseudoinverse is a left inverse. -/
theorem pinv_mul_self {m : ℕ} (A : Matrix (Fin m) (Fin 2) ℚ)
    (h : det2 (gram A) ≠ 0) : pinv A * A = 1 := by
  unfold pinv
  rw [if_pos h, Matrix.mul_assoc]
  exact inv2_mul_left _ h

/-- Both strain formulas vanish at the identity deformation gradient. -/
theorem strainFromF_one (st : StrainType) :
    strainFromF st (1 : Matrix (Fin 2) (Fin 2) ℚ) = 0 := by
  cases st
  · ext i j
    simp only [strainFromF, Matrix.transpose_one, Matrix.sub_apply,
      Matrix.smul_apply, Matrix.add_apply, Matrix.one_apply,
      Matrix.zero_apply, smul_eq_mul]
    fin_cases i <;> fin_cases j <;> norm_num
  · simp [strainFromF, Matrix.transpose_one]

/-- With identical original and deformed points and a full-rank corner
configuration, the body of the estimator returns the zero tensor with a
clean rank flag. -/
theorem strainBodyCore_self {n : ℕ} (P : Matrix (Fin n) (Fin 2) ℚ)
    (st : StrainType) (c : Fin n) (h : matRank (cornerVecs P c) = 2) :
    strainBodyCore P P st c = (0, true) := by
  have hd : det2 (gram (cornerVecs P c)) ≠ 0 := (matRank_eq_two_iff _).mp h
  show (strainFromF st ((pinv (cornerVecs P c) * cornerVecs P c)ᵀ),
      decide (¬ matRank (cornerVecs P c) < 2)) = (0, true)
  rw [pinv_mul_self _ hd, Matrix.transpose_one, strainFromF_one, h]
  rfl

/-! ## Lemmas about `npamax` and `npamin` -/

theorem foldl_max_bounds (t : List ℚ) :
    ∀ a : ℚ, a ≤ t.foldl max a ∧ ∀ x ∈ t, x ≤ t.foldl max a := by
  induction t with
  | nil => intro a; exact ⟨le_refl a, by simp⟩
  | cons b t ih =>
    intro a
    refine ⟨le_trans (le_max_left a b) (ih (max a b)).1, ?_⟩
    intro x hx
    rcases List.mem_cons.mp hx with rfl | hx
    · exact le_trans (le_max_right a x) (ih (max a x)).1
    · exact (ih (max a b)).2 x hx

theorem foldl_min_bounds (t : List ℚ) :
    ∀ a : ℚ, t.foldl min a ≤ a ∧ ∀ x ∈ t, t.foldl min a ≤ x := by
  induction t with
  | nil => intro a; exact ⟨le_refl a, by simp⟩
  | cons b t ih =>
    intro a
    refine ⟨le_trans (ih (min a b)).1 (min_le_left a b), ?_⟩
    intro x hx
    rcases List.mem_cons.mp hx with rfl | hx
    · exact le_trans (ih (min a x)).1 (min_le_right a x)
    · exact (ih (min a b)).2 x hx

theorem mem_le_npamax {l : List ℚ} {x : ℚ} (hx : x ∈ l) : x ≤ npamax l := by
  cases l with
  | nil => cases hx
  | cons a t =>
    rcases List.mem_cons.mp hx with rfl | hx
    · exact (foldl_max_bounds t x).1
    · exact (foldl_max_bounds t a).2 x hx

theorem npamin_le_mem {l : List ℚ} {x : ℚ} (hx : x ∈ l) : npamin l ≤ x := by
  cases l with
  | nil => cases hx
  | cons a t =>
    rcases List.mem_cons.mp hx with rfl | hx
    · exact (foldl_min_bounds t x).1
    · exact (foldl_min_bounds t a).2 x hx

theorem foldl_max_of_le (t : List ℚ) :
    ∀ a : ℚ, (∀ x ∈ t, x ≤ a) → t.foldl max a = a := by
  induction t with
  | nil => intro a _; rfl
  | cons b t ih =>
    intro a h
    have hb : max a b = a := max_eq_left (h b (List.mem_cons_self b t))
    rw [List.foldl_cons, hb]
    exact ih a fun x hx => h x (List.mem_cons_of_mem b hx)

theorem foldl_min_of_le (t : List ℚ) :
    ∀ a : ℚ, (∀ x ∈ t, a ≤ x) → t.foldl min a = a := by
  induction t with
  | nil => intro a _; rfl
  | cons b t ih =>
    intro a h
    have hb : min a b = a := min_eq_left (h b (List.mem_cons_self b t))
    rw [List.foldl_cons, hb]
    exact ih a fun x hx => h x (List.mem_cons_of_mem b hx)

theorem npamax_eq_npamin_of_all_eq {l : List ℚ} {v : ℚ}
    (hv : ∀ x ∈ l, x = v) : l ≠ [] → npamax l = npamin l := by
  cases l with
  | nil => intro h; exact absurd rfl h
  | cons a t =>
    intro _
    have hbound : ∀ x ∈ t, x = a := by
      intro x hx
      rw [hv x (List.mem_cons_of_mem a hx), hv a (List.mem_cons_self a t)]
    have hmax : t.foldl max a = a :=
      foldl_max_of_le t a fun x hx => le_of_eq (hbound x hx)
    have hmin : t.foldl min a = a :=
      foldl_min_of_le t a fun x hx => ge_of_eq (hbound x hx)
    show t.foldl max a = t.foldl min a
    rw [hmax, hmin]

theorem npamax_ne_npamin_of_two {l : List ℚ} {a b : ℚ}
    (ha : a ∈ l) (hb : b ∈ l) (hab : a ≠ b) : npamax l ≠ npamin l := by
  intro h
  refine hab (le_antisymm ?_ ?_)
  · exact le_trans (mem_le_npamax ha) (h ▸ npamin_le_mem hb)
  · exact le_trans (mem_le_npamax hb) (h ▸ npamin_le_mem ha)

/-! ## Behavior of `linregress` on the three input classes -/

theorem linregress_empty_left (y : List ℚ) :
    linregress [] y = .error .emptyInput := by
  simp [linregress]

theorem linregress_identical {x y : List ℚ} (hlen : 1 < x.length)
    (hy : y ≠ []) (heq : npamax x = npamin x) :
    linregress x y = .error .identicalX := by
  unfold linregress
  rw [if_neg, if_pos ⟨heq, hlen⟩]
  push_neg
  exact ⟨by omega, fun h => hy (List.length_eq_zero.mp h)⟩

theorem linregress_ok {x y : List ℚ} (hx : x ≠ []) (hy : y ≠ [])
    (hvar : npamax x ≠ npamin x) : ∃ L, linregress x y = .ok L := by
  unfold linregress
  rw [if_neg, if_neg]
  · exact ⟨_, rfl⟩
  · exact fun h => hvar h.1
  · push_neg
    exact ⟨fun h => hx (List.length_eq_zero.mp h),
      fun h => hy (List.length_eq_zero.mp h)⟩

/-! ## Claim theorems -/

/-- C2: for every pair of valid (5,2) point arrays, every strain type and
every center index in [0,4], the estimator returns `.ok` with a tensor and
a rank flag; the flag is `false` exactly when the original
corner-displacement matrix has rank < 2 (all of its 2 × 2 minors vanish);
rank deficiency never makes the call fail. -/
theorem C2_rank_flag (P Q : Matrix (Fin 5) (Fin 2) ℚ) (st : StrainType)
    (c : Fin 5) :
    ∃ T b, calculate_strain_tensor ⟨5, P⟩ ⟨5, Q⟩ st ((c : ℕ) : ℤ) =
        .ok (T, b) ∧
      (b = false ↔ ∀ i j : Fin 4,
        cornerVecs P c i 0 * cornerVecs P c j 1 -
          cornerVecs P c j 0 * cornerVecs P c i 1 = 0) := by
  refine ⟨(strainBodyCore P Q st c).1, (strainBodyCore P Q st c).2,
    calculate_strain_tensor_ok P Q st c, ?_⟩
  show decide (¬ matRank (cornerVecs P c) < 2) = false ↔ _
  rw [decide_eq_false_iff_not, not_not, matRank_lt_two_iff,
    det2_gram_eq_zero_iff]

/-- C5: for every pair of valid (5,2) point arrays, every center index in
[0,4] and both strain types, the returned strain tensor is symmetric:
entry (0,1) equals entry (1,0), whether or not the fitted `F` is
symmetric. -/
theorem C5_strain_tensor_symmetric (P Q : Matrix (Fin 5) (Fin 2) ℚ)
    (st : StrainType) (c : Fin 5) :
    ∃ T b, calculate_strain_tensor ⟨5, P⟩ ⟨5, Q⟩ st ((c : ℕ) : ℤ) =
        .ok (T, b) ∧ T 0 1 = T 1 0 := by
  exact ⟨(strainBodyCore P Q st c).1, (strainBodyCore P Q st c).2,
    calculate_strain_tensor_ok P Q st c, strainFromF_symm st _⟩

/-- C9: the implementations in `strain_analysis.py` and
`strain_analysis_core.py` return identical results for every pair of valid
(5,2) point arrays, every strain type and every center index in [0,4]:
the transpose-then-transpose in `strain_analysis.py` cancels. -/
theorem C9_implementations_agree (P Q : Matrix (Fin 5) (Fin 2) ℚ)
    (st : StrainType) (c : Fin 5) :
    calculate_strain_tensor ⟨5, P⟩ ⟨5, Q⟩ st ((c : ℕ) : ℤ) =
      calculate_strain_tensor_sa ⟨5, P⟩ ⟨5, Q⟩ st ((c : ℕ) : ℤ) := by
  rw [calculate_strain_tensor_ok, calculate_strain_tensor_sa_ok,
    strainBodySA_eq_core]

/-- C10: `calculate_strain_tensor` in `strain_analysis.py` does not enforce
the 5-point cardinality: for every `n ≥ 1` (a center index `c : Fin n`
exists exactly when `n ≥ 1`), equal-shaped `(n,2)` arrays and center index
in `[0, n-1]`, the call returns a 2 × 2 tensor instead of raising a shape
error. -/
theorem C10_sa_no_cardinality_check {n : ℕ} (P Q : Matrix (Fin n) (Fin 2) ℚ)
    (st : StrainType) (c : Fin n) :
    ∃ out, calculate_strain_tensor_sa ⟨n, P⟩ ⟨n, Q⟩ st ((c : ℕ) : ℤ) =
      .ok out :=
  ⟨_, calculate_strain_tensor_sa_ok P Q st c⟩

/-- C8: both strain-tensor implementations reject malformed calls: when the
two point arrays differ in shape, `strain_analysis.py` raises its
shape-mismatch error and the core implementation raises its shape error
(its per-array (5,2) check, which a mismatched pair necessarily
violates); when `center_index` lies outside `[0, n-1]`, both raise the
index-range error.  In every failure only an error is returned, never a
tensor. -/
theorem C8_validation_errors (o d : PointArray ℚ) (st : StrainType)
    (ci : ℤ) :
    (o.n ≠ d.n →
      calculate_strain_tensor_sa o d st ci = .error .shapeMismatch ∧
      calculate_strain_tensor o d st ci = .error .shapeError) ∧
    (o.n = d.n → (ci < 0 ∨ (o.n : ℤ) ≤ ci) →
      calculate_strain_tensor_sa o d st ci = .error .indexRange) ∧
    (o.n = 5 → d.n = 5 → (ci < 0 ∨ (5 : ℤ) ≤ ci) →
      calculate_strain_tensor o d st ci = .error .indexRange) := by
  refine ⟨?_, ?_, ?_⟩
  · intro hne
    constructor
    · unfold calculate_strain_tensor_sa
      rw [dif_neg hne]
    · unfold calculate_strain_tensor
      by_cases h5 : o.n = 5
      · rw [dif_pos h5, dif_neg (fun hd => hne (h5.trans hd.symm))]
      · rw [dif_neg h5]
  · intro hsh hci
    unfold calculate_strain_tensor_sa
    rw [dif_pos hsh, dif_neg (by omega)]
  · intro h5o h5d hci
    unfold calculate_strain_tensor
    rw [dif_pos h5o, dif_pos h5d, dif_neg (by omega)]

/-- Witness for C8 at concrete inputs: a (4,2)/(5,2) pair hits the shape
errors, and `center_index = 5` on 5-point input hits the index error in
both implementations. -/
theorem C8_validation_errors_witness :
    calculate_strain_tensor_sa ⟨4, 0⟩ ⟨5, 0⟩ .small 4 =
        .error .shapeMismatch ∧
    calculate_strain_tensor ⟨4, 0⟩ ⟨5, 0⟩ .small 4 = .error .shapeError ∧
    calculate_strain_tensor_sa ⟨5, 0⟩ ⟨5, 0⟩ .small 5 =
        .error .indexRange ∧
    calculate_strain_tensor ⟨5, 0⟩ ⟨5, 0⟩ .small 5 = .error .indexRange := by
  refine ⟨((C8_validation_errors ⟨4, 0⟩ ⟨5, 0⟩ .small 4).1 (by norm_num)).1,
    ((C8_validation_errors ⟨4, 0⟩ ⟨5, 0⟩ .small 4).1 (by norm_num)).2,
    (C8_validation_errors ⟨5, 0⟩ ⟨5, 0⟩ .small 5).2.1 rfl (by norm_num),
    (C8_validation_errors ⟨5, 0⟩ ⟨5, 0⟩ .small 5).2.2 rfl rfl (by norm_num)⟩

/-- C3 counterexample: with all five points at the origin (a valid (5,2)
array with finite coordinates) and identical original/deformed inputs,
the estimator returns the tensor `-I` (the minimum-norm least-squares fit
is `F = 0`), not the zero tensor, together with a rank warning. -/
theorem C3_counterexample :
    calculate_strain_tensor ⟨5, 0⟩ ⟨5, 0⟩ .small 4 = .ok (-1, false) ∧
      (-1 : Matrix (Fin 2) (Fin 2) ℚ) ≠ 0 := by
  constructor
  · refine Eq.trans
      (calculate_strain_tensor_ok (0 : Matrix (Fin 5) (Fin 2) ℚ) 0 .small
        ⟨4, by norm_num⟩) ?_
    have hcv : cornerVecs (0 : Matrix (Fin 5) (Fin 2) ℚ) ⟨4, by norm_num⟩ =
        (0 : Matrix (Fin (5 - 1)) (Fin 2) ℚ) := by
      ext k j; simp [cornerVecs]
    have hpinv : pinv (0 : Matrix (Fin (5 - 1)) (Fin 2) ℚ) = 0 := by
      simp [pinv, gram, det2]
    have hrank : matRank (0 : Matrix (Fin (5 - 1)) (Fin 2) ℚ) = 0 := by
      simp [matRank, gram, det2]
    show Except.ok (strainFromF .small
        ((pinv (cornerVecs (0 : Matrix (Fin 5) (Fin 2) ℚ) ⟨4, by norm_num⟩) *
          cornerVecs (0 : Matrix (Fin 5) (Fin 2) ℚ) ⟨4, by norm_num⟩)ᵀ),
        decide (¬ matRank
          (cornerVecs (0 : Matrix (Fin 5) (Fin 2) ℚ) ⟨4, by norm_num⟩) < 2)) =
      .ok (-1, false)
    rw [hcv, hpinv, hrank]
    have hF : strainFromF .small
        (((0 : Matrix (Fin 2) (Fin (5 - 1)) ℚ) *
          (0 : Matrix (Fin (5 - 1)) (Fin 2) ℚ))ᵀ) =
        (-1 : Matrix (Fin 2) (Fin 2) ℚ) := by
      simp [strainFromF]
    rw [hF]
    rfl
  · intro h
    have h00 := congrFun (congrFun h 0) 0
    simp [Matrix.neg_apply, Matrix.one_apply] at h00

/-- C3 (amended): when the four corner-displacement vectors of `p` about
the chosen center span the plane (rank 2 — equivalently the rank flag is
clean), the estimator applied to identical original and deformed points
returns the zero tensor, for both strain types and every valid center
index.  For rank-deficient `p` the minimum-norm fit returns a nonzero
tensor (see the counterexample). -/
theorem C3_identical_points_zero_strain (P : Matrix (Fin 5) (Fin 2) ℚ)
    (st : StrainType) (c : Fin 5)
    (h : matRank (cornerVecs P c) = 2) :
    calculate_strain_tensor ⟨5, P⟩ ⟨5, P⟩ st ((c : ℕ) : ℤ) =
      .ok (0, true) := by
  rw [calculate_strain_tensor_ok, strainBodyCore_self P st c h]

/-- Witness for the amended C3 at the square-with-center configuration,
for both strain types. -/
theorem C3_identical_points_zero_strain_witness :
    matRank (cornerVecs (!![0,0; 2,0; 2,2; 0,2; 1,1] :
      Matrix (Fin 5) (Fin 2) ℚ) ⟨4, by norm_num⟩) = 2 ∧
    calculate_strain_tensor ⟨5, !![0,0; 2,0; 2,2; 0,2; 1,1]⟩
      ⟨5, !![0,0; 2,0; 2,2; 0,2; 1,1]⟩ .small 4 = .ok (0, true) ∧
    calculate_strain_tensor ⟨5, !![0,0; 2,0; 2,2; 0,2; 1,1]⟩
      ⟨5, !![0,0; 2,0; 2,2; 0,2; 1,1]⟩ .green_lagrangian 4 =
        .ok (0, true) := by
  have hV : cornerVecs (!![0,0; 2,0; 2,2; 0,2; 1,1] :
      Matrix (Fin 5) (Fin 2) ℚ) ⟨4, by norm_num⟩ =
      (!![-1,-1; 1,-1; 1,1; -1,1] : Matrix (Fin (5 - 1)) (Fin 2) ℚ) := by
    ext k j
    fin_cases k <;> fin_cases j <;> norm_num [cornerVecs, cornerIndex]
  have hG : gram (!![-1,-1; 1,-1; 1,1; -1,1] :
      Matrix (Fin (5 - 1)) (Fin 2) ℚ) = !![4,0; 0,4] := by
    ext i j
    simp only [gram, Matrix.mul_apply, Matrix.transpose_apply,
      Fin.sum_univ_four]
    fin_cases i <;> fin_cases j <;>
      norm_num [Matrix.vecHead, Matrix.vecTail]
  have hrank : matRank (cornerVecs (!![0,0; 2,0; 2,2; 0,2; 1,1] :
      Matrix (Fin 5) (Fin 2) ℚ) ⟨4, by norm_num⟩) = 2 := by
    rw [matRank_eq_two_iff, hV, hG]
    norm_num [det2]
  exact ⟨hrank,
    C3_identical_points_zero_strain _ .small ⟨4, by norm_num⟩ hrank,
    C3_identical_points_zero_strain _ .green_lagrangian ⟨4, by norm_num⟩
      hrank⟩

/-- C1 (code bug in the source): `normalize_points_by_scale` has no
degenerate-scale check.  For every (5,2) fiducial array, every (2,2)
scale array whose two points coincide, and every scale length, the call
reaches the `.ok` branch — in floats it divides by zero, emits a NumPy
warning and returns non-finite coordinates — instead of failing with the
degenerate-scale error the specification describes. -/
theorem C1_no_degenerate_scale_error (F : Matrix (Fin 5) (Fin 2) ℝ)
    (S : Matrix (Fin 2) (Fin 2) ℝ) (L : ℝ) (_hcoincide : S 1 = S 0) :
    ∃ out, normalize_points_by_scale ⟨5, F⟩ ⟨2, S⟩ L = .ok out := by
  unfold normalize_points_by_scale
  rw [dif_pos rfl, dif_pos rfl]
  exact ⟨_, rfl⟩

/-- Witness for C1: both scale points at the origin, scale length 1. -/
theorem C1_no_degenerate_scale_error_witness :
    ∃ out, normalize_points_by_scale ⟨5, 0⟩ ⟨2, 0⟩ 1 = .ok out :=
  C1_no_degenerate_scale_error 0 0 1 rfl

/-- C4: for valid shapes, distinct scale points and `L > 0`, normalization
returns exactly `(fiducial - scale[0]) * (L / dist(scale[1], scale[0]))`
pointwise; consequently a fiducial point equal to `scale[0]` maps to the
origin, and the images of the two scale points under the same affine map
are exactly distance `L` apart. -/
theorem C4_normalize_formula (F : Matrix (Fin 5) (Fin 2) ℝ)
    (S : Matrix (Fin 2) (Fin 2) ℝ) (L : ℝ) (hne : S 1 ≠ S 0) (hL : 0 < L) :
    normalize_points_by_scale ⟨5, F⟩ ⟨2, S⟩ L =
      .ok (Matrix.of fun i j =>
        (F i j - S 0 j) * (L / eucDist (S 1) (S 0))) ∧
    (∀ i : Fin 5, (∀ j, F i j = S 0 j) →
      ∀ j, (F i j - S 0 j) * (L / eucDist (S 1) (S 0)) = 0) ∧
    eucDist (fun j => (S 1 j - S 0 j) * (L / eucDist (S 1) (S 0)))
      (fun j => (S 0 j - S 0 j) * (L / eucDist (S 1) (S 0))) = L := by
  have hq : 0 < (S 1 0 - S 0 0) ^ 2 + (S 1 1 - S 0 1) ^ 2 := by
    rcases Function.ne_iff.mp hne with ⟨j, hj⟩
    have hj' : S 1 j - S 0 j ≠ 0 := sub_ne_zero.mpr hj
    fin_cases j
    · have h0 : 0 < (S 1 0 - S 0 0) ^ 2 :=
        lt_of_le_of_ne (sq_nonneg _) (Ne.symm (pow_ne_zero 2 hj'))
      nlinarith [sq_nonneg (S 1 1 - S 0 1)]
    · have h0 : 0 < (S 1 1 - S 0 1) ^ 2 :=
        lt_of_le_of_ne (sq_nonneg _) (Ne.symm (pow_ne_zero 2 hj'))
      nlinarith [sq_nonneg (S 1 0 - S 0 0)]
  have hdist : eucDist (S 1) (S 0) =
      Real.sqrt ((S 1 0 - S 0 0) ^ 2 + (S 1 1 - S 0 1) ^ 2) := rfl
  have hd : 0 < eucDist (S 1) (S 0) := by
    rw [hdist]; exact Real.sqrt_pos.mpr hq
  have hf : 0 < L / eucDist (S 1) (S 0) := div_pos hL hd
  refine ⟨?_, ?_, ?_⟩
  · unfold normalize_points_by_scale
    rw [dif_pos rfl, dif_pos rfl, castPoints_self, castPoints_self]
  · intro i hi j
    rw [hi j, sub_self, zero_mul]
  · have hbeta : eucDist
        (fun j => (S 1 j - S 0 j) * (L / eucDist (S 1) (S 0)))
        (fun j => (S 0 j - S 0 j) * (L / eucDist (S 1) (S 0))) =
        Real.sqrt (((S 1 0 - S 0 0) ^ 2 + (S 1 1 - S 0 1) ^ 2) *
          (L / eucDist (S 1) (S 0)) ^ 2) := by
      unfold eucDist
      congr 1
      ring
    rw [hbeta, Real.sqrt_mul (le_of_lt hq), Real.sqrt_sq (le_of_lt hf),
      ← hdist, mul_comm, div_mul_cancel₀]
    exact ne_of_gt hd

/-- Witness for C4: zero fiducial array, scale points `(0,0)` and `(1,0)`,
scale length 2. -/
theorem C4_normalize_formula_witness :
    normalize_points_by_scale ⟨5, 0⟩ ⟨2, !![0,0; 1,0]⟩ 2 =
      .ok (Matrix.of fun i j =>
        ((0 : Matrix (Fin 5) (Fin 2) ℝ) i j - !![(0:ℝ),0; 1,0] 0 j) *
          (2 / eucDist (!![(0:ℝ),0; 1,0] 1) (!![(0:ℝ),0; 1,0] 0))) ∧
    (∀ i : Fin 5, (∀ j, (0 : Matrix (Fin 5) (Fin 2) ℝ) i j =
        !![(0:ℝ),0; 1,0] 0 j) →
      ∀ j, ((0 : Matrix (Fin 5) (Fin 2) ℝ) i j - !![(0:ℝ),0; 1,0] 0 j) *
        (2 / eucDist (!![(0:ℝ),0; 1,0] 1) (!![(0:ℝ),0; 1,0] 0)) = 0) ∧
    eucDist (fun j => (!![(0:ℝ),0; 1,0] 1 j - !![(0:ℝ),0; 1,0] 0 j) *
        (2 / eucDist (!![(0:ℝ),0; 1,0] 1) (!![(0:ℝ),0; 1,0] 0)))
      (fun j => (!![(0:ℝ),0; 1,0] 0 j - !![(0:ℝ),0; 1,0] 0 j) *
        (2 / eucDist (!![(0:ℝ),0; 1,0] 1) (!![(0:ℝ),0; 1,0] 0))) = 2 := by
  refine C4_normalize_formula 0 !![0,0; 1,0] 2 ?_ (by norm_num)
  intro h
  have h0 := congrFun h 0
  simp [Matrix.cons_val_zero, Matrix.cons_val_one, Matrix.head_cons] at h0

/-- C7: the end-to-end scenario of the specification.  Normalizing the
fiducial square `[[0,0],[1,0],[1,1],[0,1],[0.5,0.5]]` against scale points
`(0,0)`–`(1,0)` with `scale_length = 10` maps point 1 to `(10, 0)`; the
small-strain estimate between the normalized points and a copy with all
x-coordinates stretched by 1.2 is `εxx = 0.2 = 1/5`, `εyy = 0` (with a
clean rank flag). -/
theorem C7_scenario :
    (∃ N, normalize_points_by_scale
        ⟨5, !![0,0; 1,0; 1,1; 0,1; 1/2,1/2]⟩ ⟨2, !![0,0; 1,0]⟩ 10 =
        .ok N ∧ N 1 0 = 10 ∧ N 1 1 = 0) ∧
    calculate_strain_tensor ⟨5, !![0,0; 10,0; 10,10; 0,10; 5,5]⟩
      ⟨5, !![0,0; 12,0; 12,10; 0,10; 6,5]⟩ .small 4 =
      .ok (!![1/5, 0; 0, 0], true) := by
  constructor
  · have h1 : normalize_points_by_scale
        ⟨5, !![0,0; 1,0; 1,1; 0,1; 1/2,1/2]⟩ ⟨2, !![0,0; 1,0]⟩ 10 =
        .ok (Matrix.of fun i j =>
          ((!![0,0; 1,0; 1,1; 0,1; 1/2,1/2] : Matrix (Fin 5) (Fin 2) ℝ) i j -
            !![(0:ℝ),0; 1,0] 0 j) *
          (10 / eucDist (!![(0:ℝ),0; 1,0] 1) (!![(0:ℝ),0; 1,0] 0))) := by
      unfold normalize_points_by_scale
      rw [dif_pos rfl, dif_pos rfl, castPoints_self, castPoints_self]
    have hdist : eucDist (!![(0:ℝ),0; 1,0] 1) (!![(0:ℝ),0; 1,0] 0) = 1 := by
      unfold eucDist
      norm_num [Matrix.cons_val_zero, Matrix.cons_val_one, Matrix.head_cons]
    refine ⟨_, h1, ?_, ?_⟩
    · simp [hdist, Matrix.cons_val_zero, Matrix.cons_val_one,
        Matrix.head_cons]
    · simp [hdist, Matrix.cons_val_zero, Matrix.cons_val_one,
        Matrix.head_cons]
  · have hVo : cornerVecs (!![0,0; 10,0; 10,10; 0,10; 5,5] :
        Matrix (Fin 5) (Fin 2) ℚ) ⟨4, by norm_num⟩ =
        (!![-5,-5; 5,-5; 5,5; -5,5] : Matrix (Fin (5 - 1)) (Fin 2) ℚ) := by
      ext k j
      fin_cases k <;> fin_cases j <;> norm_num [cornerVecs, cornerIndex]
    have hVd : cornerVecs (!![0,0; 12,0; 12,10; 0,10; 6,5] :
        Matrix (Fin 5) (Fin 2) ℚ) ⟨4, by norm_num⟩ =
        (!![-6,-5; 6,-5; 6,5; -6,5] : Matrix (Fin (5 - 1)) (Fin 2) ℚ) := by
      ext k j
      fin_cases k <;> fin_cases j <;> norm_num [cornerVecs, cornerIndex]
    have hG : gram (!![-5,-5; 5,-5; 5,5; -5,5] :
        Matrix (Fin (5 - 1)) (Fin 2) ℚ) = !![100,0; 0,100] := by
      ext i j
      simp only [gram, Matrix.mul_apply, Matrix.transpose_apply,
        Fin.sum_univ_four]
      fin_cases i <;> fin_cases j <;>
        norm_num [Matrix.vecHead, Matrix.vecTail]
    have hdet : det2 (gram (!![-5,-5; 5,-5; 5,5; -5,5] :
        Matrix (Fin (5 - 1)) (Fin 2) ℚ)) ≠ 0 := by
      rw [hG]; norm_num [det2]
    have hrank : matRank (!![-5,-5; 5,-5; 5,5; -5,5] :
        Matrix (Fin (5 - 1)) (Fin 2) ℚ) = 2 :=
      (matRank_eq_two_iff _).mpr hdet
    have hinv : inv2 (!![(100:ℚ),0; 0,100]) = !![1/100,0; 0,1/100] := by
      ext i j
      fin_cases i <;> fin_cases j <;>
        norm_num [inv2, det2, Matrix.smul_apply, Matrix.cons_val_zero,
          Matrix.cons_val_one, Matrix.head_cons, Matrix.vecHead,
          Matrix.vecTail]
    have hpinv : pinv (!![-5,-5; 5,-5; 5,5; -5,5] :
        Matrix (Fin (5 - 1)) (Fin 2) ℚ) =
        !![-1/20, 1/20, 1/20, -1/20; -1/20, -1/20, 1/20, 1/20] := by
      unfold pinv
      rw [if_pos hdet, hG, hinv]
      ext i j
      simp only [Matrix.mul_apply, Matrix.transpose_apply, Fin.sum_univ_two]
      fin_cases i <;> fin_cases j <;>
        norm_num [Matrix.vecHead, Matrix.vecTail]
    have hX : (!![-1/20, 1/20, 1/20, -1/20; -1/20, -1/20, 1/20, 1/20] :
        Matrix (Fin 2) (Fin (5 - 1)) ℚ) *
        (!![-6,-5; 6,-5; 6,5; -6,5] : Matrix (Fin (5 - 1)) (Fin 2) ℚ) =
        !![6/5, 0; 0, 1] := by
      ext i j
      simp only [Matrix.mul_apply, Fin.sum_univ_four]
      fin_cases i <;> fin_cases j <;>
        norm_num [Matrix.vecHead, Matrix.vecTail]
    have hstrain : strainFromF .small ((!![(6:ℚ)/5, 0; 0, 1])ᵀ) =
        !![1/5, 0; 0, 0] := by
      ext i j
      fin_cases i <;> fin_cases j <;>
        norm_num [strainFromF, Matrix.sub_apply, Matrix.smul_apply,
          Matrix.add_apply, Matrix.transpose_apply, Matrix.one_apply,
          Matrix.vecHead, Matrix.vecTail]
    refine Eq.trans (calculate_strain_tensor_ok _ _ .small
      ⟨4, by norm_num⟩) ?_
    show Except.ok (strainFromF .small
        ((pinv (cornerVecs (!![0,0; 10,0; 10,10; 0,10; 5,5] :
            Matrix (Fin 5) (Fin 2) ℚ) ⟨4, by norm_num⟩) *
          cornerVecs (!![0,0; 12,0; 12,10; 0,10; 6,5] :
            Matrix (Fin 5) (Fin 2) ℚ) ⟨4, by norm_num⟩)ᵀ),
        decide (¬ matRank (cornerVecs (!![0,0; 10,0; 10,10; 0,10; 5,5] :
          Matrix (Fin 5) (Fin 2) ℚ) ⟨4, by norm_num⟩) < 2)) =
      .ok (!![1/5, 0; 0, 0], true)
    rw [hVo, hVd, hpinv, hX, hstrain, hrank]
    rfl

/-- C6 (amended): the trend analysis fails with the scipy empty-input error
when zero specimens are supplied, and with the identical-x error when two
or more specimens all share the same deformation distance; with at least
two distinct distances it succeeds and returns a regression result for
each of the three strain components.  With exactly one specimen it does
NOT fail (the scipy identical-x guard requires `len(x) > 1`); see the
counterexample. -/
theorem C6_trend_analysis_errors (sd : List StrainData) (L : ℚ) :
    (sd = [] → analyze_strain_data sd L = .error .emptyInput) ∧
    (2 ≤ sd.length →
      (∀ d1 ∈ sd, ∀ d2 ∈ sd,
        d1.deformation_distance = d2.deformation_distance) →
      analyze_strain_data sd L = .error .identicalX) ∧
    ((∃ d1 ∈ sd, ∃ d2 ∈ sd,
        d1.deformation_distance ≠ d2.deformation_distance) →
      ∃ res, analyze_strain_data sd L = .ok res) := by
  refine ⟨?_, ?_, ?_⟩
  · intro h
    subst h
    rfl
  · intro hlen hall
    have hsd : sd ≠ [] := by
      intro h; rw [h] at hlen; simp at hlen
    have hx_nonnil : sd.map (fun d => d.deformation_distance) ≠ [] := by
      intro h; exact hsd (List.map_eq_nil_iff.mp h)
    obtain ⟨d0, hd0⟩ : ∃ d, d ∈ sd := by
      cases sd with
      | nil => exact absurd rfl hsd
      | cons a t => exact ⟨a, List.mem_cons_self a t⟩
    have hv : ∀ x ∈ sd.map (fun d => d.deformation_distance),
        x = d0.deformation_distance := by
      intro x hx
      obtain ⟨d, hd, rfl⟩ := List.mem_map.mp hx
      exact hall d hd d0 hd0
    have heq := npamax_eq_npamin_of_all_eq hv hx_nonnil
    have hlen' : 1 < (sd.map (fun d => d.deformation_distance)).length := by
      rw [List.length_map]; omega
    have hy : sd.map (fun d => d.strain_tensor 0 0) ≠ [] := by
      intro h; exact hsd (List.map_eq_nil_iff.mp h)
    have hreg : calculate_regression
        (sd.map (fun d => d.deformation_distance))
        (sd.map (fun d => d.strain_tensor 0 0)) = .error .identicalX := by
      unfold calculate_regression
      rw [linregress_identical hlen' hy heq]
      rfl
    simp only [analyze_strain_data]
    rw [hreg]
    rfl
  · rintro ⟨d1, h1, d2, h2, hne⟩
    have hsd : sd ≠ [] := List.ne_nil_of_mem h1
    have hx_nonnil : sd.map (fun d => d.deformation_distance) ≠ [] := by
      intro h; exact hsd (List.map_eq_nil_iff.mp h)
    have hvar : npamax (sd.map (fun d => d.deformation_distance)) ≠
        npamin (sd.map (fun d => d.deformation_distance)) :=
      npamax_ne_npamin_of_two (List.mem_map_of_mem _ h1)
        (List.mem_map_of_mem _ h2) hne
    have hynn : ∀ i j : Fin 2, sd.map (fun d => d.strain_tensor i j) ≠ [] := by
      intro i j h; exact hsd (List.map_eq_nil_iff.mp h)
    obtain ⟨L1, hL1⟩ := linregress_ok hx_nonnil (hynn 0 0) hvar
    obtain ⟨L2, hL2⟩ := linregress_ok hx_nonnil (hynn 1 1) hvar
    obtain ⟨L3, hL3⟩ := linregress_ok hx_nonnil (hynn 0 1) hvar
    have hreg1 : calculate_regression
        (sd.map (fun d => d.deformation_distance))
        (sd.map (fun d => d.strain_tensor 0 0)) =
        .ok ⟨L1.slope, L1.intercept, L1.rvalue_sq⟩ := by
      unfold calculate_regression; rw [hL1]; rfl
    have hreg2 : calculate_regression
        (sd.map (fun d => d.deformation_distance))
        (sd.map (fun d => d.strain_tensor 1 1)) =
        .ok ⟨L2.slope, L2.intercept, L2.rvalue_sq⟩ := by
      unfold calculate_regression; rw [hL2]; rfl
    have hreg3 : calculate_regression
        (sd.map (fun d => d.deformation_distance))
        (sd.map (fun d => d.strain_tensor 0 1)) =
        .ok ⟨L3.slope, L3.intercept, L3.rvalue_sq⟩ := by
      unfold calculate_regression; rw [hL3]; rfl
    refine ⟨⟨sd, L, ⟨⟨L1.slope, L1.intercept, L1.rvalue_sq⟩,
      ⟨L2.slope, L2.intercept, L2.rvalue_sq⟩,
      ⟨L3.slope, L3.intercept, L3.rvalue_sq⟩⟩⟩, ?_⟩
    simp only [analyze_strain_data]
    rw [hreg1, hreg2, hreg3]
    rfl

/-- C6 counterexample: a single specimen — fewer than two — does not make
the analysis fail: scipy's identical-x guard fires only for `len(x) > 1`,
so the call returns a (numerically meaningless, NaN-in-floats) result
instead of an insufficient-data error. -/
theorem C6_counterexample :
    ∃ res, analyze_strain_data [⟨"one.jpg", 3, !![1, 0; 0, 1]⟩] 1 =
      .ok res :=
  ⟨_, rfl⟩

/-- Witness for the amended C6: all three branches at concrete data. -/
theorem C6_trend_analysis_errors_witness :
    analyze_strain_data [] 1 = .error .emptyInput ∧
    analyze_strain_data [⟨"a.jpg", 2, 1⟩, ⟨"b.jpg", 2, 0⟩] 1 =
      .error .identicalX ∧
    ∃ res, analyze_strain_data [⟨"a.jpg", 0, 0⟩, ⟨"b.jpg", 1, 1⟩] 1 =
      .ok res := by
  have hd : ∀ d ∈ [(⟨"a.jpg", 2, 1⟩ : StrainData), ⟨"b.jpg", 2, 0⟩],
      d.deformation_distance = 2 := by
    intro d hd
    rcases List.mem_cons.mp hd with rfl | hd
    · rfl
    · rcases List.mem_cons.mp hd with rfl | hd
      · rfl
      · cases hd
  refine ⟨(C6_trend_analysis_errors [] 1).1 rfl,
    (C6_trend_analysis_errors _ 1).2.1 (by norm_num) ?_,
    (C6_trend_analysis_errors _ 1).2.2
      ⟨⟨"a.jpg", 0, 0⟩, List.mem_cons_self _ _,
        ⟨"b.jpg", 1, 1⟩, List.mem_cons_of_mem _ (List.mem_cons_self _ _),
        by norm_num⟩⟩
  intro d1 h1 d2 h2
  rw [hd d1 h1, hd d2 h2]
